import Mathlib

/-!
Shallow embedding of the activity-store synchronization layer of the
kinder-activities repository: `src/netlify/lib/sheets.js` (row codec, row
locator, store client) and `src/netlify/functions/update-rating.js` (the
rating handler).

Modelling conventions:
* JavaScript numbers are modelled as exact rationals plus a NaN marker; no
  double rounding occurs anywhere in the modelled code paths.
* A spreadsheet cell is a string, a native boolean, or undefined (absent).
* The asynchronous Sheets API is modelled by explicit state passing: the
  sheet is a list of rows (row 0 is the header row) and every store
  operation takes and returns the sheet state.
-/

namespace KinderActivities

/-- A JavaScript number: an exact rational, or NaN. -/
inductive JsNum where
  | rat (q : ℚ)
  | nan
deriving DecidableEq

/-- A spreadsheet cell as seen through the Sheets values API: a string, a
native boolean, or undefined (cell or row absent). -/
inductive Cell where
  | str (s : String)
  | boolean (b : Bool)
  | undefined
deriving DecidableEq

/-- JS truthiness of a cell: non-empty strings and `true` are truthy. -/
def Cell.truthy : Cell → Bool
  | .str s => s != ""
  | .boolean b => b
  | .undefined => false

/-- The string a cell contributes where the JS code reads it as text.
A native boolean cell is rendered as its text form; in JS the boolean
value itself would flow into the record, but every consumer in this module
only tests, compares or re-serializes the value, for which the text form
behaves identically. -/
def Cell.toStr : Cell → String
  | .str s => s
  | .boolean b => if b then "true" else "false"
  | .undefined => "undefined"

/-- `row[i] || dflt`. -/
def cellOr (c : Cell) (dflt : String) : String :=
  if c.truthy then c.toStr else dflt

/-- `row[i]` with JS out-of-range indexing giving undefined. -/
def cellAt (row : List Cell) (i : Nat) : Cell :=
  (row.get? i).getD .undefined

/-- `row[i] === 'true' || row[i] === true` (sheets.js lines 68 and 89). -/
def Cell.isTrueLit : Cell → Bool
  | .str s => s == "true"
  | .boolean b => b
  | .undefined => false

/-- `cell === url`: strict equality of a key cell against a url string. -/
def cellIsStr (c : Cell) (u : String) : Bool :=
  match c with
  | .str s => s == u
  | _ => false

/-! ### Decimal digits -/

def digitChar (d : Nat) : Char :=
  match d with
  | 0 => '0' | 1 => '1' | 2 => '2' | 3 => '3' | 4 => '4'
  | 5 => '5' | 6 => '6' | 7 => '7' | 8 => '8' | _ => '9'

def charDigit (c : Char) : Nat := c.toNat - 48

def isDigitChar (c : Char) : Bool := 48 ≤ c.toNat && c.toNat ≤ 57

/-- Little-endian decimal digits of `n` (empty for 0); the fuel argument
bounds the recursion depth. -/
def natDigitsLE : Nat → Nat → List Nat
  | 0, _ => []
  | fuel + 1, n => if n = 0 then [] else n % 10 :: natDigitsLE fuel (n / 10)

/-- Value of a little-endian digit list. -/
def ofDigitsLE : List Nat → Nat
  | [] => 0
  | d :: ds => d + 10 * ofDigitsLE ds

/-- Decimal digit characters of `n`, most significant first. -/
def natChars (n : Nat) : List Char :=
  if n = 0 then ['0'] else ((natDigitsLE n n).map digitChar).reverse

/-- Longest leading run of decimal digits, as digit values, plus the rest. -/
def takeDigits : List Char → List Nat × List Char
  | [] => ([], [])
  | c :: rest =>
    if isDigitChar c then
      let p := takeDigits rest
      (charDigit c :: p.1, p.2)
    else ([], c :: rest)

/-- Value of a big-endian digit list. -/
def ofDigitsBE (ds : List Nat) : Nat := ds.foldl (fun acc d => acc * 10 + d) 0

/-! ### JS number parsing and printing -/

/-- The whitespace JS number parsing skips (ASCII subset). -/
def isJsSpace (c : Char) : Bool := c == ' ' || c == '\t' || c == '\n' || c == '\r'

/-- Strip one optional leading sign; returns (isNegative, rest). -/
def stripSign : List Char → Bool × List Char
  | [] => (false, [])
  | c :: rest =>
    if c = '-' then (true, rest)
    else if c = '+' then (false, rest)
    else (false, c :: rest)

/-- `parseInt(s, 10)`: skip leading whitespace, optional sign, then a
(possibly partial) run of decimal digits; NaN when no digit is found. -/
def parseIntJS (s : String) : JsNum :=
  let cs := s.data.dropWhile isJsSpace
  let sg := stripSign cs
  let p := takeDigits sg.2
  if p.1.isEmpty then .nan
  else .rat (if sg.1 then -((ofDigitsBE p.1 : ℤ) : ℚ) else ((ofDigitsBE p.1 : ℤ) : ℚ))

/-- `parseFloat(s)`: skip leading whitespace, optional sign, integer
digits, optional fractional digits after a dot; NaN when no digit at all.
Exponent notation and Infinity are not modelled (nothing in this module
produces them for the magnitudes valid records hold). -/
def parseFloatJS (s : String) : JsNum :=
  let cs := s.data.dropWhile isJsSpace
  let sg := stripSign cs
  let ip := takeDigits sg.2
  let fp := match ip.2 with
    | '.' :: rest => takeDigits rest
    | _ => ([], ip.2)
  if ip.1.isEmpty && fp.1.isEmpty then .nan
  else
    let mag : ℚ := (ofDigitsBE ip.1 : ℚ) + (ofDigitsBE fp.1 : ℚ) / (10 : ℚ) ^ fp.1.length
    .rat (if sg.1 then -mag else mag)

/-- Digit budget for printing fractional parts; a double prints at most 17
significant digits, so 32 is ample. -/
def fracFuel : Nat := 32

/-- Decimal digits of a fractional part `r ∈ [0,1)`; stops when the
remainder reaches zero, so no trailing zeros are produced. -/
def fracDigits : Nat → ℚ → List Nat
  | 0, _ => []
  | fuel + 1, r =>
    if r = 0 then []
    else (⌊r * 10⌋).toNat :: fracDigits fuel (r * 10 - ⌊r * 10⌋)

/-- `String(x)` for a JS number: sign, integer part, then fractional
digits when nonzero; NaN prints as "NaN". Exponent notation (used by JS
only below 1e-6 and at 1e21 and above) is not modelled. -/
def jsNumToString : JsNum → String
  | .nan => "NaN"
  | .rat q =>
    let a : ℚ := |q|
    let fds := fracDigits fracFuel (a - ⌊a⌋)
    String.mk ((if q < 0 then ['-'] else []) ++ natChars (⌊a⌋).toNat ++
      (if fds.isEmpty then [] else '.' :: fds.map digitChar))

/-! ### JSON, restricted to arrays of strings

`JSON.stringify` is only ever called on arrays (the `services` field and
array-valued cell updates), and in this model arrays hold strings.
`JSON.parse` is modelled for exactly the texts stringify produces: arrays
of strings. Real `JSON.parse` would also succeed on other JSON values
(numbers, objects, booleans), which this model reports as failure, sending
`rowToActivity` to its comma-split fallback; no such cell is ever written
by the modelled code. -/

/-- JSON escaping as produced by `JSON.stringify` for the characters this
module encounters; other control characters (which stringify would
u-escape) pass through unchanged. -/
def jsonEscapeChar (c : Char) : List Char :=
  if c = '\"' then ['\\', '\"']
  else if c = '\\' then ['\\', '\\']
  else if c = '\n' then ['\\', 'n']
  else if c = '\t' then ['\\', 't']
  else if c = '\r' then ['\\', 'r']
  else [c]

/-- The escaped body of a JSON string literal. -/
def jsonEscape (s : String) : List Char :=
  (s.data.map jsonEscapeChar).flatten

/-- A quoted JSON string literal. -/
def jsonQuoteChars (s : String) : List Char :=
  '\"' :: jsonEscape s ++ ['\"']

/-- Comma-joined JSON string literals. -/
def jsonItemsChars : List String → List Char
  | [] => []
  | [x] => jsonQuoteChars x
  | x :: y :: xs => jsonQuoteChars x ++ ',' :: jsonItemsChars (y :: xs)

/-- `JSON.stringify` on an array of strings. -/
def jsonStringifyStrings (xs : List String) : String :=
  String.mk ('[' :: jsonItemsChars xs ++ [']'])

/-- Read a JSON string body up to the closing quote, undoing the escapes
`jsonEscapeChar` produces; `none` on malformed input. -/
def jsonStringBody : Nat → List Char → Option (List Char × List Char)
  | 0, _ => none
  | _ + 1, [] => none
  | fuel + 1, c :: rest =>
    if c = '\"' then some ([], rest)
    else if c = '\\' then
      match rest with
      | [] => none
      | e :: rest2 =>
        let dec : Option Char :=
          if e = '\"' then some '\"'
          else if e = '\\' then some '\\'
          else if e = 'n' then some '\n'
          else if e = 't' then some '\t'
          else if e = 'r' then some '\r'
          else none
        match dec with
        | none => none
        | some ch =>
          match jsonStringBody fuel rest2 with
          | none => none
          | some p => some (ch :: p.1, p.2)
    else
      match jsonStringBody fuel rest with
      | none => none
      | some p => some (c :: p.1, p.2)

/-- Read one quoted JSON string starting at the opening quote. -/
def readJsonString (cs : List Char) : Option (String × List Char) :=
  match cs with
  | '\"' :: rest =>
    match jsonStringBody (rest.length + 1) rest with
    | some p => some (String.mk p.1, p.2)
    | none => none
  | _ => none

/-- Read a non-empty comma-separated sequence of JSON strings up to and
including the closing bracket. -/
def jsonItems : Nat → List Char → Option (List String × List Char)
  | 0, _ => none
  | fuel + 1, cs =>
    match readJsonString (cs.dropWhile isJsSpace) with
    | none => none
    | some p =>
      match p.2.dropWhile isJsSpace with
      | ',' :: more =>
        match jsonItems fuel more with
        | some q => some (p.1 :: q.1, q.2)
        | none => none
      | ']' :: rem => some ([p.1], rem)
      | _ => none

/-- `JSON.parse` restricted to arrays of strings (see section comment). -/
def jsonParseStrings (s : String) : Option (List String) :=
  match s.data.dropWhile isJsSpace with
  | '[' :: rest =>
    match rest.dropWhile isJsSpace with
    | ']' :: rem => if (rem.dropWhile isJsSpace).isEmpty then some [] else none
    | _ =>
      match jsonItems (rest.length + 1) rest with
      | some p => if (p.2.dropWhile isJsSpace).isEmpty then some p.1 else none
      | none => none
  | _ => none

/-! ### The Activity record and the row codec (sheets.js lines 4-119) -/

/-- The in-memory activity record. Optional fields model JS fields that
are either absent or present. `userRemoved` is modelled as a Bool: in JS
the decoded field is either absent or `true`, and every consumer only
tests its truthiness, under which absent and `false` coincide. Numeric
fields hold JS numbers (possibly NaN, since decoding applies no range or
NaN check). -/
structure Activity where
  url : String
  shortName : String
  alive : Bool
  lastUpdated : String
  category : Option String := none
  openHours : Option String := none
  address : Option String := none
  services : Option (List String) := none
  description : Option String := none
  userRating : Option JsNum := none
  drivingMinutes : Option JsNum := none
  transitMinutes : Option JsNum := none
  distanceKm : Option JsNum := none
  userComment : Option String := none
  userRemoved : Bool := false
deriving DecidableEq

/-- Column mapping for Google Sheets (sheets.js lines 4-20). -/
def COLUMNS : List (String × Nat) :=
  [("url", 0), ("shortName", 1), ("alive", 2), ("lastUpdated", 3),
   ("category", 4), ("openHours", 5), ("address", 6), ("services", 7),
   ("description", 8), ("userRating", 9), ("drivingMinutes", 10),
   ("transitMinutes", 11), ("distanceKm", 12), ("userComment", 13),
   ("userRemoved", 14)]

/-- `COLUMNS[field]`, undefined for unknown field names. -/
def columnIndex (field : String) : Option Nat :=
  (COLUMNS.find? (fun p => p.1 == field)).map (fun p => p.2)

def HEADER_ROW : List String :=
  ["url", "shortName", "alive", "lastUpdated", "category", "openHours",
   "address", "services", "description", "userRating", "drivingMinutes",
   "transitMinutes", "distanceKm", "userComment", "userRemoved"]

/-- The comma-split fallback for services cells that fail JSON parsing:
`split(',').map(s => s.trim())`. -/
def commaSplitTrim (s : String) : List String :=
  (s.splitOn ",").map String.trim

/-- `rowToActivity` (sheets.js lines 62-94): convert a row to an activity
object, null when the row is missing or its url cell is falsy. -/
def rowToActivity (row : List Cell) : Option Activity :=
  if (cellAt row 0).truthy then
    some {
      url := cellOr (cellAt row 0) ""
      shortName := cellOr (cellAt row 1) ""
      alive := (cellAt row 2).isTrueLit
      lastUpdated := cellOr (cellAt row 3) ""
      category := if (cellAt row 4).truthy then some (cellAt row 4).toStr else none
      openHours := if (cellAt row 5).truthy then some (cellAt row 5).toStr else none
      address := if (cellAt row 6).truthy then some (cellAt row 6).toStr else none
      services :=
        if (cellAt row 7).truthy then
          some (match jsonParseStrings (cellAt row 7).toStr with
            | some xs => xs
            | none => commaSplitTrim (cellAt row 7).toStr)
        else none
      description := if (cellAt row 8).truthy then some (cellAt row 8).toStr else none
      userRating :=
        if (cellAt row 9).truthy then some (parseIntJS (cellAt row 9).toStr) else none
      drivingMinutes :=
        if (cellAt row 10).truthy then some (parseIntJS (cellAt row 10).toStr) else none
      transitMinutes :=
        if (cellAt row 11).truthy then some (parseIntJS (cellAt row 11).toStr) else none
      distanceKm :=
        if (cellAt row 12).truthy then some (parseFloatJS (cellAt row 12).toStr) else none
      userComment := if (cellAt row 13).truthy then some (cellAt row 13).toStr else none
      userRemoved := (cellAt row 14).isTrueLit }
  else none

/-- `activityToRow` (sheets.js lines 99-119): build a row of
`HEADER_ROW.length` cells prefilled with empty strings, then set each
column from the record. -/
def activityToRow (a : Activity) : List String :=
  let row := List.replicate HEADER_ROW.length ""
  let row := row.set 0 a.url
  let row := row.set 1 a.shortName
  let row := row.set 2 (if a.alive then "true" else "false")
  let row := row.set 3 a.lastUpdated
  let row := row.set 4 (a.category.getD "")
  let row := row.set 5 (a.openHours.getD "")
  let row := row.set 6 (a.address.getD "")
  let row := row.set 7 (match a.services with
    | some xs => jsonStringifyStrings xs
    | none => "")
  let row := row.set 8 (a.description.getD "")
  let row := row.set 9 (match a.userRating with
    | some n => jsNumToString n
    | none => "")
  let row := row.set 10 (match a.drivingMinutes with
    | some n => jsNumToString n
    | none => "")
  let row := row.set 11 (match a.transitMinutes with
    | some n => jsNumToString n
    | none => "")
  let row := row.set 12 (match a.distanceKm with
    | some n => jsNumToString n
    | none => "")
  let row := row.set 13 (a.userComment.getD "")
  let row := row.set 14 (if a.userRemoved then "true" else "")
  row

/-! ### The store client (sheets.js lines 124-281)

The backing sheet is a list of rows; row 0 is the header row. Each
operation returns the sheet state it leaves behind (unchanged on a failed
or read-only call), making "performs no write" provable. -/

abbrev Sheet := List (List Cell)

/-- The rows of range `Sheet1!A2:O`: everything below the header. -/
def dataRows (s : Sheet) : List (List Cell) := s.drop 1

inductive StoreError where
  | notFound
  | unknownField (field : String)
deriving DecidableEq

/-- `getAllActivities` (lines 124-137): decode every data row, dropping
null decodes and records with a truthy `userRemoved`. -/
def getAllActivities (s : Sheet) : List Activity :=
  ((dataRows s).filterMap rowToActivity).filter (fun a => !a.userRemoved)

/-- The scan inside `findActivityRowIndex`: `i` is the current row index
in the full `A:A` read; a match at index `i` yields `i + 1`. -/
def findFrom : Nat → List (List Cell) → String → Option Nat
  | _, [], _ => none
  | i, r :: rest, url =>
    if cellIsStr (cellAt r 0) url then some (i + 1) else findFrom (i + 1) rest url

/-- `findActivityRowIndex` (lines 142-158): 1-indexed (header-inclusive)
position of the first row below the header whose key cell strictly equals
`url`. -/
def findActivityRowIndex (s : Sheet) (url : String) : Option Nat :=
  findFrom 1 (s.drop 1) url

/-- A JS value reaching `updateActivityField` as the new cell value, or a
parsed JSON body field. Arrays are restricted to arrays of strings (the
only arrays the application sends). -/
inductive JsValue where
  | null
  | undefined
  | boolean (b : Bool)
  | num (n : JsNum)
  | str (s : String)
  | arr (xs : List String)
deriving DecidableEq

/-- Value formatting for the single-cell write (lines 182-191):
null/undefined blank the cell, booleans become literal text, arrays JSON
text, everything else its string conversion. -/
def formatValue : JsValue → String
  | .null => ""
  | .undefined => ""
  | .boolean b => if b then "true" else "false"
  | .arr xs => jsonStringifyStrings xs
  | .num n => jsNumToString n
  | .str s => s

/-- Write one cell of a row, padding with empty cells when the row is
shorter than the target column (as the backing sheet does). -/
def setCellPadded (r : List Cell) (col : Nat) (v : Cell) : List Cell :=
  if col < r.length then r.set col v
  else r ++ List.replicate (col - r.length) (.str "") ++ [v]

/-- Write the single cell at 0-indexed sheet row `rowIdx`, column `col`. -/
def writeCell (s : Sheet) (rowIdx col : Nat) (v : Cell) : Sheet :=
  s.set rowIdx (setCellPadded ((s.get? rowIdx).getD []) col v)

/-- `updateActivityField` (lines 163-205): locate the row (Not-Found when
absent), validate the field name, format the value, write the single
cell, then re-read the full record from the new state and return it. -/
def updateActivityField (s : Sheet) (url field : String) (value : JsValue) :
    Sheet × Except StoreError (Option Activity) :=
  match findActivityRowIndex s url with
  | none => (s, .error .notFound)
  | some rowIndex =>
    match columnIndex field with
    | none => (s, .error (.unknownField field))
    | some col =>
      let s2 := writeCell s (rowIndex - 1) col (.str (formatValue value))
      (s2, .ok ((getAllActivities s2).find? (fun a => a.url == url)))

/-- `markActivityRemoved` (lines 210-212). -/
def markActivityRemoved (s : Sheet) (url : String) :
    Sheet × Except StoreError (Option Activity) :=
  updateActivityField s url "userRemoved" (.boolean true)

/-- `getActivityByUrl` (lines 217-220). -/
def getActivityByUrl (s : Sheet) (url : String) : Option Activity :=
  (getAllActivities s).find? (fun a => a.url == url)

/-- `addActivity` (lines 225-242): append the encoded row. -/
def addActivity (s : Sheet) (a : Activity) : Sheet × Activity :=
  (s ++ [(activityToRow a).map Cell.str], a)

/-- A partial-update object for `updateActivity`: each field is either
absent from the object (outer `none`) or present with a value; a present
value may itself be undefined (inner `none`), which JS object spread still
copies over the current record's field. -/
structure ActivityUpdate where
  url : Option (Option String) := none
  shortName : Option (Option String) := none
  alive : Option (Option Bool) := none
  lastUpdated : Option (Option String) := none
  category : Option (Option String) := none
  openHours : Option (Option String) := none
  address : Option (Option String) := none
  services : Option (Option (List String)) := none
  description : Option (Option String) := none
  userRating : Option (Option JsNum) := none
  drivingMinutes : Option (Option JsNum) := none
  transitMinutes : Option (Option JsNum) := none
  distanceKm : Option (Option JsNum) := none
  userComment : Option (Option String) := none
  userRemoved : Option (Option Bool) := none
deriving DecidableEq

/-- The record whose every field reads as unset; `...null` spreads to it. -/
def emptyActivity : Activity :=
  { url := "", shortName := "", alive := false, lastUpdated := "" }

/-- The shallow merge `... currentActivity, ...updates` in
`updateActivity` (line 266). A field present in the update wins — even one
explicitly set to undefined — otherwise the current record's field is
kept (the current record may be null, which spreads to nothing).
Undefined results are collapsed to the neutral value every consumer
observes (empty string / false / absent). -/
def mergeActivity (cur : Option Activity) (u : ActivityUpdate) : Activity :=
  let c := cur.getD emptyActivity
  { url := match u.url with | some v => v.getD "" | none => c.url
    shortName := match u.shortName with | some v => v.getD "" | none => c.shortName
    alive := match u.alive with | some v => v.getD false | none => c.alive
    lastUpdated := match u.lastUpdated with | some v => v.getD "" | none => c.lastUpdated
    category := match u.category with | some v => v | none => c.category
    openHours := match u.openHours with | some v => v | none => c.openHours
    address := match u.address with | some v => v | none => c.address
    services := match u.services with | some v => v | none => c.services
    description := match u.description with | some v => v | none => c.description
    userRating := match u.userRating with | some v => v | none => c.userRating
    drivingMinutes := match u.drivingMinutes with | some v => v | none => c.drivingMinutes
    transitMinutes := match u.transitMinutes with | some v => v | none => c.transitMinutes
    distanceKm := match u.distanceKm with | some v => v | none => c.distanceKm
    userComment := match u.userComment with | some v => v | none => c.userComment
    userRemoved := match u.userRemoved with | some v => v.getD false | none => c.userRemoved }

/-- `updateActivity` (lines 247-279): locate the row (Not-Found when
absent), read and decode the current row, shallow-merge the update over
it, re-encode and write the full row back, returning the merged record. -/
def updateActivity (s : Sheet) (url : String) (updates : ActivityUpdate) :
    Sheet × Except StoreError Activity :=
  match findActivityRowIndex s url with
  | none => (s, .error .notFound)
  | some rowIndex =>
    let currentRow := (s.get? (rowIndex - 1)).getD []
    let currentActivity := rowToActivity currentRow
    let updatedActivity := mergeActivity currentActivity updates
    let newRow := (activityToRow updatedActivity).map Cell.str
    (s.set (rowIndex - 1) newRow, .ok updatedActivity)

/-! ### The rating handler (update-rating.js) -/

/-- ToNumber on a string (the implicit coercion in `rating < 1`): an
empty or whitespace-only string is 0; otherwise the whole trimmed string
must be a signed decimal numeral, else NaN. Hex and exponent forms are
not modelled. -/
def toNumberString (s : String) : JsNum :=
  let cs := ((s.data.dropWhile isJsSpace).reverse.dropWhile isJsSpace).reverse
  if cs.isEmpty then .rat 0
  else
    let sg := stripSign cs
    let ip := takeDigits sg.2
    let fp := match ip.2 with
      | '.' :: rest => takeDigits rest
      | _ => ([], ip.2)
    if ip.1.isEmpty && fp.1.isEmpty then .nan
    else if fp.2.isEmpty then
      let mag : ℚ := (ofDigitsBE ip.1 : ℚ) + (ofDigitsBE fp.1 : ℚ) / (10 : ℚ) ^ fp.1.length
      .rat (if sg.1 then -mag else mag)
    else .nan

/-- ToNumber coercion of a JS value (arrays coerce through their
comma-joined string form). -/
def toNumber : JsValue → JsNum
  | .null => .rat 0
  | .undefined => .nan
  | .boolean b => .rat (if b then 1 else 0)
  | .num n => n
  | .str s => toNumberString s
  | .arr xs => toNumberString (String.intercalate "," xs)

/-- `v < bound` with JS numeric coercion: NaN compares false. -/
def jsLt (v : JsValue) (bound : ℚ) : Bool :=
  match toNumber v with
  | .nan => false
  | .rat q => decide (q < bound)

/-- `v > bound` with JS numeric coercion: NaN compares false. -/
def jsGt (v : JsValue) (bound : ℚ) : Bool :=
  match toNumber v with
  | .nan => false
  | .rat q => decide (bound < q)

/-- The parsed request body destructured in the rating handler. `url` is
`none` when absent (non-string url values are not modelled; the frontend
only sends strings). -/
structure RatingBody where
  url : Option String
  rating : JsValue
deriving DecidableEq

/-- The handler event: the HTTP method and the parsed JSON body (`none`
models a body `JSON.parse` throws on). Headers are constant and omitted. -/
structure RatingEvent where
  httpMethod : String
  body : Option RatingBody
deriving DecidableEq

/-- Response bodies, abbreviated to their JSON payload content. -/
inductive ResponseBody where
  | empty
  | errorMsg (msg : String)
  | success (activity : Option Activity)
deriving DecidableEq

structure HttpResponse where
  statusCode : Nat
  body : ResponseBody
deriving DecidableEq

/-- Whether the handler treated the url body field as missing: `!url`. -/
def urlMissing (u : Option String) : Bool :=
  match u with
  | none => true
  | some s => s == ""

/-- The rating handler (update-rating.js lines 3-71): CORS preflight,
method check, body parse, required-url check, range check (null exempt),
then the single-field store update mapped to 200/404/500. -/
def updateRatingHandler (s : Sheet) (event : RatingEvent) : Sheet × HttpResponse :=
  if event.httpMethod == "OPTIONS" then
    (s, { statusCode := 200, body := .empty })
  else if event.httpMethod != "PUT" then
    (s, { statusCode := 405, body := .errorMsg "Method not allowed" })
  else
    match event.body with
    | none => (s, { statusCode := 500, body := .errorMsg "Failed to update rating" })
    | some b =>
      if urlMissing b.url then
        (s, { statusCode := 400, body := .errorMsg "URL is required" })
      else if b.rating != .null && (jsLt b.rating 1 || jsGt b.rating 5) then
        (s, { statusCode := 400, body := .errorMsg "Rating must be between 1 and 5" })
      else
        match updateActivityField s (b.url.getD "") "userRating" b.rating with
        | (s2, .ok activity) =>
          (s2, { statusCode := 200, body := .success activity })
        | (s2, .error .notFound) =>
          (s2, { statusCode := 404, body := .errorMsg "Activity not found" })
        | (s2, .error (.unknownField _)) =>
          (s2, { statusCode := 500, body := .errorMsg "Failed to update rating" })

/-! ### Lemmas: decimal digits and integer parsing -/

theorem digitChar_digit : ∀ d, d < 10 → isDigitChar (digitChar d) = true := by decide

theorem charDigit_digitChar : ∀ d, d < 10 → charDigit (digitChar d) = d := by decide

theorem isDigit_not_space (c : Char) (h : isDigitChar c = true) : isJsSpace c = false := by
  unfold isJsSpace
  simp only [Bool.or_eq_false_iff, beq_eq_false_iff_ne, ne_eq]
  refine ⟨⟨⟨?_, ?_⟩, ?_⟩, ?_⟩ <;> (intro hc; subst hc; exact absurd h (by decide))

theorem isDigit_ne_sign (c : Char) (h : isDigitChar c = true) :
    c ≠ '-' ∧ c ≠ '+' ∧ c ≠ '.' := by
  refine ⟨?_, ?_, ?_⟩ <;> (intro hc; subst hc; exact absurd h (by decide))

theorem natDigitsLE_lt : ∀ fuel n d, d ∈ natDigitsLE fuel n → d < 10 := by
  intro fuel
  induction fuel with
  | zero => intro n d hd; simp [natDigitsLE] at hd
  | succ f ih =>
    intro n d hd
    unfold natDigitsLE at hd
    by_cases h0 : n = 0
    · simp [h0] at hd
    · simp only [h0, if_false, List.mem_cons] at hd
      rcases hd with h | h
      · omega
      · exact ih _ _ h

theorem ofDigitsLE_natDigitsLE : ∀ fuel n, n ≤ fuel → ofDigitsLE (natDigitsLE fuel n) = n := by
  intro fuel
  induction fuel with
  | zero =>
    intro n h
    have h0 : n = 0 := by omega
    subst h0
    rfl
  | succ f ih =>
    intro n h
    unfold natDigitsLE
    by_cases h0 : n = 0
    · simp [h0, ofDigitsLE]
    · simp only [h0, if_false]
      unfold ofDigitsLE
      rw [ih (n / 10) (by omega)]
      omega

theorem natChars_ne_nil (n : Nat) : natChars n ≠ [] := by
  unfold natChars
  split
  · simp
  · rename_i h0
    simp only [ne_eq, List.reverse_eq_nil_iff, List.map_eq_nil_iff]
    cases hn : n with
    | zero => exact absurd hn h0
    | succ m =>
      unfold natDigitsLE
      simp

theorem natChars_digits (n : Nat) : ∀ c ∈ natChars n, isDigitChar c = true := by
  intro c hc
  unfold natChars at hc
  split at hc
  · simp only [List.mem_singleton] at hc; subst hc; decide
  · simp only [List.mem_reverse, List.mem_map] at hc
    obtain ⟨d, hd, rfl⟩ := hc
    exact digitChar_digit d (natDigitsLE_lt _ _ d hd)

theorem foldl_digits (l : List Nat) : ∀ a : Nat,
    List.foldl (fun acc d => acc * 10 + d) a l =
      a * 10 ^ l.length + List.foldl (fun acc d => acc * 10 + d) 0 l := by
  induction l with
  | nil => intro a; simp
  | cons x l ih =>
    intro a
    simp only [List.foldl_cons, List.length_cons]
    rw [ih (a * 10 + x), ih (0 * 10 + x)]
    ring

theorem ofDigitsBE_cons (x : Nat) (l : List Nat) :
    ofDigitsBE (x :: l) = x * 10 ^ l.length + ofDigitsBE l := by
  unfold ofDigitsBE
  simp only [List.foldl_cons]
  rw [foldl_digits l (0 * 10 + x)]
  ring_nf

theorem ofDigitsLE_cons (x : Nat) (l : List Nat) :
    ofDigitsLE (x :: l) = x + 10 * ofDigitsLE l := rfl

theorem ofDigitsBE_nil : ofDigitsBE [] = 0 := rfl

theorem ofDigitsBE_reverse (l : List Nat) : ofDigitsBE l.reverse = ofDigitsLE l := by
  induction l with
  | nil => rfl
  | cons x l ih =>
    simp only [List.reverse_cons, ofDigitsLE_cons]
    unfold ofDigitsBE at ih ⊢
    rw [List.foldl_append, ih]
    simp only [List.foldl_cons, List.foldl_nil]
    omega

theorem takeDigits_append (ds rest : List Char)
    (hds : ∀ c ∈ ds, isDigitChar c = true)
    (hrest : ∀ c, rest.head? = some c → isDigitChar c = false) :
    takeDigits (ds ++ rest) = (ds.map charDigit, rest) := by
  induction ds with
  | nil =>
    simp only [List.nil_append, List.map_nil]
    cases rest with
    | nil => rfl
    | cons c r =>
      unfold takeDigits
      rw [hrest c rfl]
      simp
  | cons d ds ih =>
    have hd : isDigitChar d = true := hds d (by simp)
    have ihh := ih (fun c hc => hds c (by simp [hc]))
    simp only [List.cons_append, takeDigits, hd, if_true, List.append_eq, ihh, List.map_cons]

theorem ofDigitsBE_natChars (n : Nat) : ofDigitsBE ((natChars n).map charDigit) = n := by
  unfold natChars
  split
  · rename_i h0; subst h0; decide
  · rename_i h0
    rw [List.map_reverse, List.map_map]
    have hmap : (natDigitsLE n n).map (charDigit ∘ digitChar) = natDigitsLE n n := by
      have hpt : ∀ d ∈ natDigitsLE n n, (charDigit ∘ digitChar) d = id d :=
        fun d hd => charDigit_digitChar d (natDigitsLE_lt _ _ d hd)
      rw [List.map_congr_left hpt, List.map_id]
    rw [hmap, ofDigitsBE_reverse, ofDigitsLE_natDigitsLE n n le_rfl]

theorem fracDigits_zero (fuel : Nat) : fracDigits fuel 0 = [] := by
  cases fuel <;> simp [fracDigits]

/-- Unfolding equation of jsNumToString on a finite number. -/
theorem jsNumToString_rat (q : ℚ) :
    jsNumToString (.rat q) = String.mk
      ((if q < 0 then ['-'] else []) ++ natChars (⌊|q|⌋).toNat ++
        (if (fracDigits fracFuel (|q| - (⌊|q|⌋ : ℚ))).isEmpty then []
         else '.' :: (fracDigits fracFuel (|q| - (⌊|q|⌋ : ℚ))).map digitChar)) := rfl

/-- parseInt recovers every integral JS number from its string form. -/
theorem parseIntJS_jsNumToString (q : ℚ) (hq : q.den = 1) :
    parseIntJS (jsNumToString (.rat q)) = .rat q := by
  obtain ⟨z, rfl⟩ : ∃ z : ℤ, (z : ℚ) = q := ⟨q.num, (Rat.den_eq_one_iff q).mp hq⟩
  have habs : |(z : ℚ)| = ((z.natAbs : ℤ) : ℚ) := by
    rw [← Int.cast_abs, Int.abs_eq_natAbs]
  have hfloor : ⌊|(z : ℚ)|⌋ = (z.natAbs : ℤ) := by
    rw [habs, Int.floor_intCast]
  have hfract : |(z : ℚ)| - (⌊|(z : ℚ)|⌋ : ℚ) = 0 := by
    rw [hfloor, habs]; ring
  have htn : (⌊|(z : ℚ)|⌋).toNat = z.natAbs := by
    rw [hfloor]; exact Int.toNat_natCast _
  rw [jsNumToString_rat, hfract, fracDigits_zero, htn]
  simp only [List.isEmpty_nil, if_true, List.append_nil]
  obtain ⟨c, t, hct⟩ : ∃ c t, natChars z.natAbs = c :: t := by
    cases hN : natChars z.natAbs with
    | nil => exact absurd hN (natChars_ne_nil _)
    | cons c t => exact ⟨c, t, rfl⟩
  have hcd : isDigitChar c = true := natChars_digits _ c (by rw [hct]; simp)
  have htake0 := takeDigits_append (natChars z.natAbs) []
    (natChars_digits _) (fun x hx => by rw [List.head?_nil] at hx; exact Option.noConfusion hx)
  rw [List.append_nil] at htake0
  have htake : takeDigits (natChars z.natAbs) = ((natChars z.natAbs).map charDigit, []) := htake0
  have hof : ofDigitsBE ((natChars z.natAbs).map charDigit) = z.natAbs := ofDigitsBE_natChars _
  have hisE : ((natChars z.natAbs).map charDigit).isEmpty = false := by rw [hct]; rfl
  unfold parseIntJS
  by_cases hz : (z : ℚ) < 0
  · rw [if_pos hz]
    simp only [List.nil_append, List.cons_append]
    rw [List.dropWhile_cons_of_neg (by simp [isJsSpace])]
    have hsign : stripSign ('-' :: natChars z.natAbs) = (true, natChars z.natAbs) := by
      simp [stripSign]
    simp only [hsign, htake, hisE, hof]
    have hcast : ((z.natAbs : ℤ) : ℚ) = -(z : ℚ) := by
      rw [← habs, abs_of_neg hz]
    rw [hcast]
    simp
  · rw [if_neg hz]
    simp only [List.nil_append]
    rw [hct, List.dropWhile_cons_of_neg (by simp [isDigit_not_space c hcd])]
    have hsign : stripSign (c :: t) = (false, c :: t) := by
      obtain ⟨h1, h2, _⟩ := isDigit_ne_sign c hcd
      simp [stripSign, h1, h2]
    rw [hsign]
    simp only [← hct, htake, hisE, hof]
    have hcast : ((z.natAbs : ℤ) : ℚ) = (z : ℚ) := by
      rw [← habs, abs_of_nonneg (not_lt.mp hz)]
    rw [hcast]
    simp

/-! ### Lemmas: fractional digits and float parsing -/

theorem map_charDigit_digitChar (L : List Nat) (hL : ∀ d ∈ L, d < 10) :
    (L.map digitChar).map charDigit = L := by
  rw [List.map_map]
  have hpt : ∀ d ∈ L, (charDigit ∘ digitChar) d = id d :=
    fun d hd => charDigit_digitChar d (hL d hd)
  rw [List.map_congr_left hpt, List.map_id]

theorem takeDigits_all (L : List Nat) (hL : ∀ d ∈ L, d < 10) :
    takeDigits (L.map digitChar) = (L, []) := by
  have hdig : ∀ c ∈ L.map digitChar, isDigitChar c = true := by
    intro c hc
    obtain ⟨d, hd, rfl⟩ := List.mem_map.mp hc
    exact digitChar_digit d (hL d hd)
  have h := takeDigits_append (L.map digitChar) [] hdig
    (fun x hx => by rw [List.head?_nil] at hx; exact Option.noConfusion hx)
  rw [List.append_nil] at h
  rw [h, map_charDigit_digitChar L hL]

/-- Correctness of the fractional-digit expansion: each digit is below 10
and the digits denote exactly the fractional part, provided it terminates
within the fuel (the scaled value is an integer). -/
theorem fracDigits_spec : ∀ fuel (r : ℚ), 0 ≤ r → r < 1 →
    (∃ z : ℤ, (10 : ℚ) ^ fuel * r = z) →
    (∀ d ∈ fracDigits fuel r, d < 10) ∧
    ((ofDigitsBE (fracDigits fuel r) : ℚ) / (10 : ℚ) ^ (fracDigits fuel r).length = r) := by
  intro fuel
  induction fuel with
  | zero =>
    intro r h0 h1 hex
    obtain ⟨z, hz⟩ := hex
    rw [pow_zero, one_mul] at hz
    have hz0 : z = 0 := by
      have ha : (0 : ℚ) ≤ (z : ℚ) := hz ▸ h0
      have hb : (z : ℚ) < 1 := hz ▸ h1
      have ha2 : (0 : ℤ) ≤ z := by exact_mod_cast ha
      have hb2 : z < 1 := by exact_mod_cast hb
      omega
    have hr : r = 0 := by rw [hz, hz0]; norm_num
    subst hr
    refine ⟨fun d hd => by simp [fracDigits] at hd, by simp [fracDigits, ofDigitsBE]⟩
  | succ f ih =>
    intro r h0 h1 hex
    obtain ⟨z, hz⟩ := hex
    by_cases hr0 : r = 0
    · subst hr0
      refine ⟨fun d hd => by simp [fracDigits_zero] at hd, by simp [fracDigits_zero, ofDigitsBE]⟩
    · have hstep : fracDigits (f + 1) r =
          (⌊r * 10⌋).toNat :: fracDigits f (r * 10 - ⌊r * 10⌋) := by
        rw [fracDigits, if_neg hr0]
      have hd0 : (0 : ℤ) ≤ ⌊r * 10⌋ := Int.floor_nonneg.mpr (by linarith)
      have hd10 : ⌊r * 10⌋ < 10 := by
        rw [Int.floor_lt]
        push_cast
        linarith
      have hfl : (⌊r * 10⌋ : ℚ) ≤ r * 10 := Int.floor_le _
      have hfu : r * 10 < ⌊r * 10⌋ + 1 := Int.lt_floor_add_one _
      have hr2a : 0 ≤ r * 10 - (⌊r * 10⌋ : ℚ) := by linarith
      have hr2b : r * 10 - (⌊r * 10⌋ : ℚ) < 1 := by linarith
      have hex2 : ∃ w : ℤ, (10 : ℚ) ^ f * (r * 10 - ⌊r * 10⌋) = w := by
        refine ⟨z - 10 ^ f * ⌊r * 10⌋, ?_⟩
        push_cast
        rw [← hz]
        ring
      obtain ⟨ihb, ihv⟩ := ih (r * 10 - ⌊r * 10⌋) hr2a hr2b hex2
      constructor
      · intro d hd
        rw [hstep] at hd
        rcases List.mem_cons.mp hd with h | h
        · omega
        · exact ihb d h
      · rw [hstep]
        set L := fracDigits f (r * 10 - ⌊r * 10⌋) with hL
        rw [ofDigitsBE_cons]
        have hlen : ((⌊r * 10⌋).toNat :: L).length = L.length + 1 := rfl
        rw [hlen]
        have h10 : (10 : ℚ) ^ L.length ≠ 0 := by positivity
        have hBE : (ofDigitsBE L : ℚ) = (r * 10 - ⌊r * 10⌋) * 10 ^ L.length := by
          rw [div_eq_iff h10] at ihv
          exact ihv
        have htnc : (((⌊r * 10⌋).toNat : ℕ) : ℚ) = (⌊r * 10⌋ : ℚ) := by
          rw [show (((⌊r * 10⌋).toNat : ℕ) : ℚ) = (((⌊r * 10⌋).toNat : ℤ) : ℚ) by push_cast; rfl,
            Int.toNat_of_nonneg hd0]
        rw [div_eq_iff (by positivity : (10 : ℚ) ^ (L.length + 1) ≠ 0)]
        push_cast
        rw [htnc, hBE]
        ring

/-- Evaluation of parseFloat on a printed number shape: optional sign,
integer digits, then an optional dot and fractional digits. -/
theorem parseFloatJS_eval (P : Prop) [Decidable P] (M : Nat) (L : List Nat)
    (hLb : ∀ d ∈ L, d < 10) :
    parseFloatJS (String.mk ((if P then ['-'] else []) ++ natChars M ++
      (if L.isEmpty then [] else '.' :: L.map digitChar))) =
    .rat (if P then -((M : ℚ) + (ofDigitsBE L : ℚ) / (10 : ℚ) ^ L.length)
          else ((M : ℚ) + (ofDigitsBE L : ℚ) / (10 : ℚ) ^ L.length)) := by
  obtain ⟨c, t, hct⟩ : ∃ c t, natChars M = c :: t := by
    cases hN : natChars M with
    | nil => exact absurd hN (natChars_ne_nil _)
    | cons c t => exact ⟨c, t, rfl⟩
  have hcd : isDigitChar c = true := natChars_digits _ c (by rw [hct]; simp)
  have hisE : ((natChars M).map charDigit).isEmpty = false := by rw [hct]; rfl
  have hne : (natChars M).map charDigit ≠ [] := by rw [hct]; simp
  have hof : ofDigitsBE ((natChars M).map charDigit) = M := ofDigitsBE_natChars M
  have hsign0 : stripSign (c :: t) = (false, c :: t) := by
    obtain ⟨h1, h2, _⟩ := isDigit_ne_sign c hcd
    simp [stripSign, h1, h2]
  by_cases hL : L.isEmpty
  · have hT := takeDigits_append (natChars M) []
      (natChars_digits M) (fun x hx => by rw [List.head?_nil] at hx; exact Option.noConfusion hx)
    rw [List.append_nil] at hT
    rw [if_pos hL, List.append_nil]
    have hLnil : L = [] := by
      cases L with
      | nil => rfl
      | cons d ds => exact absurd hL (by simp)
    subst hLnil
    unfold parseFloatJS
    by_cases hP : P
    · rw [if_pos hP, if_pos hP]
      simp only [List.singleton_append]
      rw [List.dropWhile_cons_of_neg (by simp [isJsSpace])]
      have hsign : stripSign ('-' :: natChars M) = (true, natChars M) := by simp [stripSign]
      rw [hsign]
      simp only [hT, hne, hof, ofDigitsBE_nil, List.length_nil]
      norm_num
      exact fun h => absurd h (natChars_ne_nil M)
    · rw [if_neg hP, if_neg hP]
      simp only [List.nil_append]
      rw [hct, List.dropWhile_cons_of_neg (by simp [isDigit_not_space c hcd])]
      rw [hsign0]
      simp only [← hct, hT, hne, hof, ofDigitsBE_nil, List.length_nil]
      norm_num
      exact fun h => absurd h (natChars_ne_nil M)
  · have hT := takeDigits_append (natChars M) ('.' :: L.map digitChar)
      (natChars_digits M) (fun x hx => by
        rw [List.head?_cons] at hx
        cases hx
        decide)
    have hTL := takeDigits_all L hLb
    rw [if_neg hL]
    unfold parseFloatJS
    by_cases hP : P
    · rw [if_pos hP, if_pos hP]
      simp only [List.singleton_append, List.cons_append, List.nil_append]
      rw [List.dropWhile_cons_of_neg (by simp [isJsSpace])]
      have hsign : stripSign ('-' :: (natChars M ++ '.' :: L.map digitChar)) =
          (true, natChars M ++ '.' :: L.map digitChar) := by simp [stripSign]
      rw [hsign]
      simp [hT, hTL, hisE, hof]
    · rw [if_neg hP, if_neg hP]
      simp only [List.nil_append, List.cons_append]
      have hbody : natChars M ++ '.' :: L.map digitChar =
          c :: (t ++ '.' :: L.map digitChar) := by rw [hct]; rfl
      rw [hbody, List.dropWhile_cons_of_neg (by simp [isDigit_not_space c hcd])]
      have hsign : stripSign (c :: (t ++ '.' :: L.map digitChar)) =
          (false, c :: (t ++ '.' :: L.map digitChar)) := by
        obtain ⟨h1, h2, _⟩ := isDigit_ne_sign c hcd
        simp [stripSign, h1, h2]
      rw [hsign, ← hbody]
      simp [hT, hTL, hisE, hof]

/-- parseFloat recovers every JS number with a terminating decimal
expansion from its string form. -/
theorem parseFloatJS_jsNumToString (q : ℚ)
    (hq : ∃ z : ℤ, (10 : ℚ) ^ fracFuel * q = z) :
    parseFloatJS (jsNumToString (.rat q)) = .rat q := by
  obtain ⟨z, hz⟩ := hq
  have ha0 : (0 : ℚ) ≤ |q| := abs_nonneg q
  have hm0 : (0 : ℤ) ≤ ⌊|q|⌋ := Int.floor_nonneg.mpr ha0
  have hfr0 : 0 ≤ |q| - (⌊|q|⌋ : ℚ) := by
    have := Int.floor_le |q|
    linarith
  have hfr1 : |q| - (⌊|q|⌋ : ℚ) < 1 := by
    have := Int.lt_floor_add_one |q|
    linarith
  have hexfr : ∃ w : ℤ, (10 : ℚ) ^ fracFuel * (|q| - ⌊|q|⌋) = w := by
    by_cases hq0 : 0 ≤ q
    · refine ⟨z - 10 ^ fracFuel * ⌊|q|⌋, ?_⟩
      push_cast
      rw [abs_of_nonneg hq0]
      linear_combination hz
    · refine ⟨-z - 10 ^ fracFuel * ⌊|q|⌋, ?_⟩
      push_cast
      rw [abs_of_neg (lt_of_not_ge hq0)]
      linear_combination -hz
  obtain ⟨hLb, hLv⟩ := fracDigits_spec fracFuel (|q| - ⌊|q|⌋) hfr0 hfr1 hexfr
  have hMc : (((⌊|q|⌋).toNat : ℕ) : ℚ) = (⌊|q|⌋ : ℚ) := by
    rw [show (((⌊|q|⌋).toNat : ℕ) : ℚ) = (((⌊|q|⌋).toNat : ℤ) : ℚ) by push_cast; rfl,
      Int.toNat_of_nonneg hm0]
  rw [jsNumToString_rat, parseFloatJS_eval (q < 0) (⌊|q|⌋).toNat _ hLb]
  congr 1
  rw [hMc, hLv]
  by_cases hq0 : q < 0
  · rw [if_pos hq0]
    rw [show (⌊|q|⌋ : ℚ) + (|q| - (⌊|q|⌋ : ℚ)) = |q| by ring, abs_of_neg hq0]
    ring
  · rw [if_neg hq0]
    rw [show (⌊|q|⌋ : ℚ) + (|q| - (⌊|q|⌋ : ℚ)) = |q| by ring, abs_of_nonneg (le_of_not_lt hq0)]

/-! ### Lemmas: JSON round trip -/

theorem jsonEscapeChar_len (c : Char) : 1 ≤ (jsonEscapeChar c).length := by
  unfold jsonEscapeChar
  split_ifs <;> simp

theorem jsonEscape_len (cs : List Char) :
    cs.length ≤ ((cs.map jsonEscapeChar).flatten).length := by
  induction cs with
  | nil => simp
  | cons c cs ih =>
    simp only [List.map_cons, List.flatten_cons, List.length_append, List.length_cons]
    have := jsonEscapeChar_len c
    omega

theorem jsonItemsChars_len : ∀ xs : List String, xs.length ≤ (jsonItemsChars xs).length := by
  intro xs
  induction xs with
  | nil => simp [jsonItemsChars]
  | cons x ys ih =>
    cases ys with
    | nil => simp [jsonItemsChars, jsonQuoteChars]
    | cons y xs2 =>
      have hjc : jsonItemsChars (x :: y :: xs2) =
          jsonQuoteChars x ++ ',' :: jsonItemsChars (y :: xs2) := rfl
      rw [hjc]
      simp only [List.length_append, List.length_cons, jsonQuoteChars]
      simp only [List.length_cons] at ih ⊢
      omega

theorem jsonStringBody_step (f : Nat) (c : Char) (rest : List Char) (out : List Char × List Char)
    (h : jsonStringBody f rest = some out) :
    jsonStringBody (f + 1) (jsonEscapeChar c ++ rest) = some (c :: out.1, out.2) := by
  by_cases h1 : c = '\"'
  · subst h1; simp [jsonEscapeChar, jsonStringBody, h]
  · by_cases h2 : c = '\\'
    · subst h2; simp [jsonEscapeChar, jsonStringBody, h]
    · by_cases h3 : c = '\n'
      · subst h3; simp [jsonEscapeChar, jsonStringBody, h]
      · by_cases h4 : c = '\t'
        · subst h4; simp [jsonEscapeChar, jsonStringBody, h]
        · by_cases h5 : c = '\r'
          · subst h5; simp [jsonEscapeChar, jsonStringBody, h]
          · simp [jsonEscapeChar, jsonStringBody, h1, h2, h3, h4, h5, h]

theorem jsonStringBody_escape (cs : List Char) : ∀ (rem : List Char) (fuel : Nat),
    cs.length + 1 ≤ fuel →
    jsonStringBody fuel ((cs.map jsonEscapeChar).flatten ++ '\"' :: rem) = some (cs, rem) := by
  induction cs with
  | nil =>
    intro rem fuel hf
    cases fuel with
    | zero => omega
    | succ f =>
      simp only [List.map_nil, List.flatten_nil, List.nil_append]
      simp [jsonStringBody]
  | cons c cs ih =>
    intro rem fuel hf
    cases fuel with
    | zero => omega
    | succ f =>
      simp only [List.map_cons, List.flatten_cons, List.append_assoc]
      have hfc : cs.length + 1 ≤ f := by
        simp only [List.length_cons] at hf
        omega
      exact jsonStringBody_step f c _ (cs, rem) (ih rem f hfc)

theorem readJsonString_quote (x : String) (rem : List Char) :
    readJsonString (jsonQuoteChars x ++ rem) = some (x, rem) := by
  unfold jsonQuoteChars readJsonString
  simp only [List.cons_append, List.append_assoc, List.singleton_append, List.nil_append]
  rw [show jsonEscape x = (x.data.map jsonEscapeChar).flatten from rfl]
  rw [jsonStringBody_escape x.data rem _ (by
    simp only [List.length_append, List.length_cons]
    have := jsonEscape_len x.data
    omega)]

theorem jsonQuoteChars_cons (x : String) (t : List Char) :
    jsonQuoteChars x ++ t = '\"' :: (jsonEscape x ++ '\"' :: t) := by
  unfold jsonQuoteChars
  simp [List.cons_append, List.append_assoc]

theorem jsonItems_chars (xs : List String) : ∀ (x : String) (rem : List Char) (fuel : Nat),
    xs.length + 1 ≤ fuel →
    jsonItems fuel (jsonItemsChars (x :: xs) ++ ']' :: rem) = some (x :: xs, rem) := by
  induction xs with
  | nil =>
    intro x rem fuel hf
    cases fuel with
    | zero => omega
    | succ f =>
      show jsonItems (f + 1) (jsonQuoteChars x ++ ']' :: rem) = some ([x], rem)
      have hdw : (jsonQuoteChars x ++ ']' :: rem).dropWhile isJsSpace =
          jsonQuoteChars x ++ ']' :: rem := by
        rw [jsonQuoteChars_cons]
        exact List.dropWhile_cons_of_neg (by decide)
      simp only [jsonItems, hdw, readJsonString_quote]
      rw [List.dropWhile_cons_of_neg (by decide)]
      rfl
  | cons y xs2 ih2 =>
    intro x rem fuel hf
    cases fuel with
    | zero => omega
    | succ f =>
      have hjc : jsonItemsChars (x :: y :: xs2) ++ ']' :: rem =
          jsonQuoteChars x ++ ',' :: (jsonItemsChars (y :: xs2) ++ ']' :: rem) := by
        show (jsonQuoteChars x ++ ',' :: jsonItemsChars (y :: xs2)) ++ ']' :: rem = _
        simp [List.append_assoc]
      rw [hjc]
      have hdw : (jsonQuoteChars x ++ ',' :: (jsonItemsChars (y :: xs2) ++ ']' :: rem)).dropWhile
          isJsSpace = jsonQuoteChars x ++ ',' :: (jsonItemsChars (y :: xs2) ++ ']' :: rem) := by
        rw [jsonQuoteChars_cons]
        exact List.dropWhile_cons_of_neg (by decide)
      simp only [jsonItems, hdw, readJsonString_quote]
      rw [List.dropWhile_cons_of_neg (by decide)]
      have hfx : xs2.length + 1 ≤ f := by
        simp only [List.length_cons] at hf
        omega
      show (match jsonItems f (jsonItemsChars (y :: xs2) ++ ']' :: rem) with
        | some q => some (x :: q.1, q.2)
        | none => none) = some (x :: y :: xs2, rem)
      rw [ih2 y rem f hfx]

/-- JSON.parse inverts JSON.stringify on every array of strings. -/
theorem jsonParse_stringify (xs : List String) :
    jsonParseStrings (jsonStringifyStrings xs) = some xs := by
  cases xs with
  | nil => rfl
  | cons x xs2 =>
    unfold jsonStringifyStrings jsonParseStrings
    rw [show (String.mk ('[' :: jsonItemsChars (x :: xs2) ++ [']'])).data =
      '[' :: (jsonItemsChars (x :: xs2) ++ [']']) from rfl]
    rw [List.dropWhile_cons_of_neg (by decide)]
    obtain ⟨T, hT⟩ : ∃ T, jsonItemsChars (x :: xs2) = '\"' :: T := by
      cases xs2 with
      | nil => exact ⟨_, rfl⟩
      | cons y ys => exact ⟨_, rfl⟩
    rw [hT]
    rw [show ('\"' :: T) ++ [']'] = '\"' :: (T ++ [']']) from rfl]
    show (match List.dropWhile isJsSpace ('\"' :: (T ++ [']'])) with
      | ']' :: rem => if (List.dropWhile isJsSpace rem).isEmpty = true then some [] else none
      | _ => match jsonItems (('\"' :: (T ++ [']'])).length + 1) ('\"' :: (T ++ [']'])) with
             | some p => if (List.dropWhile isJsSpace p.2).isEmpty = true then some p.1 else none
             | none => none) = some (x :: xs2)
    rw [List.dropWhile_cons_of_neg (by decide)]
    have hlen : xs2.length + 1 ≤ ('\"' :: (T ++ [']'])).length + 1 := by
      have h1 := jsonItemsChars_len (x :: xs2)
      rw [hT] at h1
      simp only [List.length_cons, List.length_append] at h1 ⊢
      omega
    have hitems := jsonItems_chars xs2 x [] (('\"' :: (T ++ [']'])).length + 1) hlen
    rw [hT] at hitems
    rw [show ('\"' :: T) ++ ']' :: ([] : List Char) = '\"' :: (T ++ [']']) from by simp] at hitems
    show (match jsonItems (('\"' :: (T ++ [']'])).length + 1) ('\"' :: (T ++ [']'])) with
      | some p => if (p.2.dropWhile isJsSpace).isEmpty then some p.1 else none
      | none => none) = some (x :: xs2)
    rw [hitems]
    rfl

/-! ### Claim support: the codec in explicit form, validity, normalization -/

/-- The encoded row written out: the fixed 15-column order. -/
theorem activityToRow_explicit (a : Activity) :
    activityToRow a =
      [a.url, a.shortName, (if a.alive then "true" else "false"), a.lastUpdated,
       a.category.getD "", a.openHours.getD "", a.address.getD "",
       (match a.services with | some xs => jsonStringifyStrings xs | none => ""),
       a.description.getD "",
       (match a.userRating with | some n => jsNumToString n | none => ""),
       (match a.drivingMinutes with | some n => jsNumToString n | none => ""),
       (match a.transitMinutes with | some n => jsNumToString n | none => ""),
       (match a.distanceKm with | some n => jsNumToString n | none => ""),
       a.userComment.getD "",
       (if a.userRemoved then "true" else "")] := rfl

/-- Decoding a full-width row, written out field by field. -/
theorem rowToActivity_cons (c0 c1 c2 c3 c4 c5 c6 c7 c8 c9 c10 c11 c12 c13 c14 : Cell) :
    rowToActivity [c0, c1, c2, c3, c4, c5, c6, c7, c8, c9, c10, c11, c12, c13, c14] =
      if c0.truthy then
        some { url := cellOr c0 "", shortName := cellOr c1 "", alive := c2.isTrueLit,
               lastUpdated := cellOr c3 "",
               category := if c4.truthy then some c4.toStr else none,
               openHours := if c5.truthy then some c5.toStr else none,
               address := if c6.truthy then some c6.toStr else none,
               services := if c7.truthy then
                   some (match jsonParseStrings c7.toStr with
                     | some xs => xs
                     | none => commaSplitTrim c7.toStr)
                 else none,
               description := if c8.truthy then some c8.toStr else none,
               userRating := if c9.truthy then some (parseIntJS c9.toStr) else none,
               drivingMinutes := if c10.truthy then some (parseIntJS c10.toStr) else none,
               transitMinutes := if c11.truthy then some (parseIntJS c11.toStr) else none,
               distanceKm := if c12.truthy then some (parseFloatJS c12.toStr) else none,
               userComment := if c13.truthy then some c13.toStr else none,
               userRemoved := c14.isTrueLit }
      else none := rfl

/-- An integer-valued numeric field (absent, or an integral JS number). -/
def validNum (o : Option JsNum) : Bool :=
  match o with
  | none => true
  | some (.rat q) => q.den == 1
  | some .nan => false

/-- A decimal numeric field: absent, or a JS number whose decimal
expansion terminates within the printing budget (every double printed
without exponent notation has one); expressed as the denominator dividing
a power of ten. -/
def validDec (o : Option JsNum) : Bool :=
  match o with
  | none => true
  | some (.rat q) => 10 ^ fracFuel % q.den == 0
  | some .nan => false

/-- Validity per the spec data model: a non-empty key, integer rating and
minute fields, a decimal distance. -/
def ValidActivity (a : Activity) : Bool :=
  a.url != "" && validNum a.userRating && validNum a.drivingMinutes &&
    validNum a.transitMinutes && validDec a.distanceKm

/-- The one lossy spot of the codec: an optional string field that is
present but empty encodes to the empty cell and is read back as absent.
Every other field is reproduced exactly. -/
def normalizeActivity (a : Activity) : Activity :=
  { a with
    category := if a.category = some "" then none else a.category
    openHours := if a.openHours = some "" then none else a.openHours
    address := if a.address = some "" then none else a.address
    description := if a.description = some "" then none else a.description
    userComment := if a.userComment = some "" then none else a.userComment }

theorem den_one_exists (x : ℚ) (h : x.den = 1) : ∃ z : ℤ, x = (z : ℚ) :=
  ⟨x.num, ((Rat.den_eq_one_iff x).mp h).symm⟩

theorem dvd_pow_exists (q : ℚ) (h : q.den ∣ 10 ^ fracFuel) :
    ∃ z : ℤ, (10 : ℚ) ^ fracFuel * q = z := by
  obtain ⟨c, hc⟩ := h
  refine ⟨q.num * c, ?_⟩
  have hden0 : ((q.den : ℕ) : ℚ) ≠ 0 := Nat.cast_ne_zero.mpr q.den_nz
  have hnd : (q.num : ℚ) = q * ((q.den : ℕ) : ℚ) := by
    have h1 : ((q.num : ℚ) / ((q.den : ℕ) : ℚ)) * ((q.den : ℕ) : ℚ) =
        q * ((q.den : ℕ) : ℚ) := by rw [Rat.num_div_den q]
    rwa [div_mul_cancel₀ _ hden0] at h1
  have h10 : (10 : ℚ) ^ fracFuel = ((q.den : ℕ) : ℚ) * ((c : ℕ) : ℚ) := by
    have hcast := congrArg (fun n : ℕ => (n : ℚ)) hc
    push_cast at hcast
    exact hcast
  rw [h10]
  push_cast
  rw [hnd]
  ring

theorem jsonStringifyStrings_ne_empty (xs : List String) : jsonStringifyStrings xs ≠ "" := by
  unfold jsonStringifyStrings
  intro h
  have hd := congrArg String.data h
  simp at hd

theorem jsNumToString_rat_ne_empty (q : ℚ) : jsNumToString (.rat q) ≠ "" := by
  rw [jsNumToString_rat]
  intro h
  have hd := congrArg String.data h
  simp only [show ("" : String).data = [] from rfl] at hd
  rcases List.append_eq_nil.mp hd with ⟨hd1, _⟩
  rcases List.append_eq_nil.mp hd1 with ⟨_, hd2⟩
  exact natChars_ne_nil _ hd2

theorem cellOr_str_empty (s : String) : cellOr (.str s) "" = s := by
  by_cases hs : s = ""
  · subst hs; rfl
  · simp [cellOr, Cell.truthy, Cell.toStr, bne_iff_ne, hs]

theorem decode_optStr (o : Option String) :
    (if (Cell.str (o.getD "")).truthy then some (Cell.str (o.getD "")).toStr else none) =
      if o = some "" then none else o := by
  rcases o with _ | v
  · rfl
  · by_cases hv : v = ""
    · subst hv; rfl
    · simp [Cell.truthy, Cell.toStr, bne_iff_ne, hv]

theorem decode_services (o : Option (List String)) :
    (if (Cell.str (match o with | some xs => jsonStringifyStrings xs | none => "")).truthy then
       some (match jsonParseStrings (Cell.str (match o with
           | some xs => jsonStringifyStrings xs | none => "")).toStr with
         | some xs => xs
         | none => commaSplitTrim (Cell.str (match o with
             | some xs => jsonStringifyStrings xs | none => "")).toStr)
     else none) = o := by
  rcases o with _ | xs
  · rfl
  · show (if (Cell.str (jsonStringifyStrings xs)).truthy then
        some (match jsonParseStrings (Cell.str (jsonStringifyStrings xs)).toStr with
          | some xs => xs
          | none => commaSplitTrim (Cell.str (jsonStringifyStrings xs)).toStr)
      else none) = some xs
    have hne := jsonStringifyStrings_ne_empty xs
    rw [if_pos (show (Cell.str (jsonStringifyStrings xs)).truthy = true from
      bne_iff_ne.mpr hne)]
    rw [show (Cell.str (jsonStringifyStrings xs)).toStr = jsonStringifyStrings xs from rfl]
    rw [jsonParse_stringify]

theorem decode_intField (o : Option JsNum) :
    validNum o = true →
    (if (Cell.str (match o with | some n => jsNumToString n | none => "")).truthy then
       some (parseIntJS (Cell.str (match o with
           | some n => jsNumToString n | none => "")).toStr)
     else none) = o := by
  intro h
  rcases o with _ | n
  · rfl
  · cases n with
    | nan => simp [validNum] at h
    | rat q =>
      have hden : q.den = 1 := by simpa [validNum] using h
      show (if (Cell.str (jsNumToString (.rat q))).truthy then
          some (parseIntJS (Cell.str (jsNumToString (.rat q))).toStr)
        else none) = some (JsNum.rat q)
      rw [if_pos (show (Cell.str (jsNumToString (.rat q))).truthy = true from
        bne_iff_ne.mpr (jsNumToString_rat_ne_empty q))]
      rw [show (Cell.str (jsNumToString (.rat q))).toStr = jsNumToString (.rat q) from rfl]
      rw [parseIntJS_jsNumToString q hden]

theorem decode_decField (o : Option JsNum) :
    validDec o = true →
    (if (Cell.str (match o with | some n => jsNumToString n | none => "")).truthy then
       some (parseFloatJS (Cell.str (match o with
           | some n => jsNumToString n | none => "")).toStr)
     else none) = o := by
  intro h
  rcases o with _ | n
  · rfl
  · cases n with
    | nan => simp [validDec] at h
    | rat q =>
      have hmod : 10 ^ fracFuel % q.den = 0 := by simpa [validDec] using h
      obtain ⟨z, hz⟩ := dvd_pow_exists q (Nat.dvd_of_mod_eq_zero hmod)
      show (if (Cell.str (jsNumToString (.rat q))).truthy then
          some (parseFloatJS (Cell.str (jsNumToString (.rat q))).toStr)
        else none) = some (JsNum.rat q)
      rw [if_pos (show (Cell.str (jsNumToString (.rat q))).truthy = true from
        bne_iff_ne.mpr (jsNumToString_rat_ne_empty q))]
      rw [show (Cell.str (jsNumToString (.rat q))).toStr = jsNumToString (.rat q) from rfl]
      rw [parseFloatJS_jsNumToString q ⟨z, hz⟩]

/-- C1: for every valid Activity record `a`, decoding the encoding of `a`
(rowToActivity of activityToRow) yields a record that agrees with `a` on
every field that was present in `a`, except fields whose encoded form is
the empty string and which are therefore read back as absent (e.g. a
present-but-empty `userComment`); `normalizeActivity` collapses exactly
those fields. -/
theorem decode_encode_roundtrip (a : Activity) (h : ValidActivity a = true) :
    rowToActivity ((activityToRow a).map Cell.str) = some (normalizeActivity a) := by
  have h5 : (a.url != "") = true ∧ validNum a.userRating = true ∧
      validNum a.drivingMinutes = true ∧ validNum a.transitMinutes = true ∧
      validDec a.distanceKm = true := by
    unfold ValidActivity at h
    simp only [Bool.and_eq_true] at h
    tauto
  obtain ⟨hurl, hur, hdm, htm, hdk⟩ := h5
  rw [activityToRow_explicit]
  simp only [List.map_cons, List.map_nil]
  rw [rowToActivity_cons]
  rw [if_pos (show (Cell.str a.url).truthy = true from hurl)]
  refine congrArg some ?_
  unfold normalizeActivity
  simp only [Activity.mk.injEq]
  refine ⟨?_, ?_, ?_, ?_, ?_, ?_, ?_, ?_, ?_, ?_, ?_, ?_, ?_, ?_, ?_⟩
  · exact cellOr_str_empty a.url
  · exact cellOr_str_empty a.shortName
  · cases a.alive <;> rfl
  · exact cellOr_str_empty a.lastUpdated
  · exact decode_optStr a.category
  · exact decode_optStr a.openHours
  · exact decode_optStr a.address
  · exact decode_services a.services
  · exact decode_optStr a.description
  · exact decode_intField a.userRating hur
  · exact decode_intField a.drivingMinutes hdm
  · exact decode_intField a.transitMinutes htm
  · exact decode_decField a.distanceKm hdk
  · exact decode_optStr a.userComment
  · cases a.userRemoved <;> rfl

/-- A fully populated record used as the concrete round-trip input. -/
def demoActivity : Activity :=
  { url := "https://a", shortName := "Zoo", alive := true, lastUpdated := "2024-01-01",
    category := some "zoo", openHours := some "9-17", address := some "Addr 1",
    services := some ["x", "y,z"], description := some "d",
    userRating := some (.rat 4), drivingMinutes := some (.rat 12),
    transitMinutes := some (.rat 30),
    distanceKm := some (.rat (⟨7, 2, by decide, by decide⟩ : ℚ)),
    userComment := some "nice", userRemoved := false }

/-- Witness for C1 at a concrete fully populated record. -/
theorem decode_encode_roundtrip_witness :
    ValidActivity demoActivity = true ∧
    rowToActivity ((activityToRow demoActivity).map Cell.str) =
      some (normalizeActivity demoActivity) :=
  ⟨by decide, decode_encode_roundtrip demoActivity (by decide)⟩

/-! ### The decode inversion and simple claims -/

/-- Inversion: a successful decode forces a truthy key cell and determines
every field of the record. -/
theorem rowToActivity_some (row : List Cell) (a : Activity)
    (h : rowToActivity row = some a) :
    (cellAt row 0).truthy = true ∧
    a = { url := cellOr (cellAt row 0) "", shortName := cellOr (cellAt row 1) "",
          alive := (cellAt row 2).isTrueLit, lastUpdated := cellOr (cellAt row 3) "",
          category := if (cellAt row 4).truthy then some (cellAt row 4).toStr else none,
          openHours := if (cellAt row 5).truthy then some (cellAt row 5).toStr else none,
          address := if (cellAt row 6).truthy then some (cellAt row 6).toStr else none,
          services := if (cellAt row 7).truthy then
              some (match jsonParseStrings (cellAt row 7).toStr with
                | some xs => xs
                | none => commaSplitTrim (cellAt row 7).toStr)
            else none,
          description := if (cellAt row 8).truthy then some (cellAt row 8).toStr else none,
          userRating := if (cellAt row 9).truthy then some (parseIntJS (cellAt row 9).toStr)
            else none,
          drivingMinutes := if (cellAt row 10).truthy then
              some (parseIntJS (cellAt row 10).toStr) else none,
          transitMinutes := if (cellAt row 11).truthy then
              some (parseIntJS (cellAt row 11).toStr) else none,
          distanceKm := if (cellAt row 12).truthy then
              some (parseFloatJS (cellAt row 12).toStr) else none,
          userComment := if (cellAt row 13).truthy then some (cellAt row 13).toStr else none,
          userRemoved := (cellAt row 14).isTrueLit } := by
  unfold rowToActivity at h
  by_cases ht : (cellAt row 0).truthy
  · rw [if_pos ht] at h
    exact ⟨ht, (Option.some_injective _ h).symm⟩
  · rw [if_neg ht] at h
    exact absurd h (by simp)

theorem isTrueLit_iff (c : Cell) :
    c.isTrueLit = true ↔ (c = .str "true" ∨ c = .boolean true) := by
  cases c with
  | str s => simp [Cell.isTrueLit]
  | boolean b => simp [Cell.isTrueLit]
  | undefined => simp [Cell.isTrueLit]

/-- C7: decode sets the boolean fields `alive` and `userRemoved` to true
exactly when the corresponding cell is the exact string literal "true" or
the native boolean true; every other cell value — including "TRUE" and
"1" — yields false (for `userRemoved`, an absent field, modelled false). -/
theorem decode_boolean_literals (row : List Cell) (a : Activity)
    (h : rowToActivity row = some a) :
    (a.alive = true ↔ (cellAt row 2 = .str "true" ∨ cellAt row 2 = .boolean true)) ∧
    (a.userRemoved = true ↔
      (cellAt row 14 = .str "true" ∨ cellAt row 14 = .boolean true)) := by
  obtain ⟨-, rfl⟩ := rowToActivity_some row a h
  exact ⟨isTrueLit_iff _, isTrueLit_iff _⟩

/-- A row whose alive cell is the uppercase "TRUE" and whose removed cell
is "1": both must decode to false. -/
def demoRowBool : List Cell :=
  [.str "u", .str "n", .str "TRUE", .str "d", .str "", .str "", .str "", .str "",
   .str "", .str "", .str "", .str "", .str "", .str "", .str "1"]

def demoABool : Activity :=
  { url := "u", shortName := "n", alive := false, lastUpdated := "d" }

/-- Witness for C7: "TRUE" and "1" decode to false, a native boolean true
decodes to true. -/
theorem decode_boolean_literals_witness :
    ((demoABool.alive = true ↔
        (cellAt demoRowBool 2 = .str "true" ∨ cellAt demoRowBool 2 = .boolean true)) ∧
      (demoABool.userRemoved = true ↔
        (cellAt demoRowBool 14 = .str "true" ∨ cellAt demoRowBool 14 = .boolean true))) ∧
    rowToActivity demoRowBool = some demoABool ∧
    demoABool.alive = false ∧ demoABool.userRemoved = false ∧
    (Cell.boolean true).isTrueLit = true :=
  ⟨decode_boolean_literals demoRowBool demoABool (by decide), by decide, by decide,
    by decide, by decide⟩

/-- C8: encode produces a row of exactly 15 cells (the fixed column count)
in the fixed column order; every unset optional field encodes as the empty
string, `alive` as the literal "true"/"false", and `userRemoved`
asymmetrically as "true" when set and the empty string otherwise. -/
theorem encode_row_shape (a : Activity) :
    (activityToRow a).length = HEADER_ROW.length ∧ HEADER_ROW.length = 15 ∧
    activityToRow a =
      [a.url, a.shortName, (if a.alive then "true" else "false"), a.lastUpdated,
       a.category.getD "", a.openHours.getD "", a.address.getD "",
       (match a.services with | some xs => jsonStringifyStrings xs | none => ""),
       a.description.getD "",
       (match a.userRating with | some n => jsNumToString n | none => ""),
       (match a.drivingMinutes with | some n => jsNumToString n | none => ""),
       (match a.transitMinutes with | some n => jsNumToString n | none => ""),
       (match a.distanceKm with | some n => jsNumToString n | none => ""),
       a.userComment.getD "",
       (if a.userRemoved then "true" else "")] :=
  ⟨by rw [activityToRow_explicit]; rfl, rfl, activityToRow_explicit a⟩

/-- C2: every record in a read-all result has `userRemoved` false, and
every such record was decoded (successfully, hence from a truthy url
cell) from one of the data rows. -/
theorem getAllActivities_no_removed (s : Sheet) (a : Activity)
    (h : a ∈ getAllActivities s) :
    a.userRemoved = false ∧
    ∃ r ∈ dataRows s, (cellAt r 0).truthy = true ∧ rowToActivity r = some a := by
  unfold getAllActivities at h
  rw [List.mem_filter] at h
  obtain ⟨hmem, hflag⟩ := h
  rw [List.mem_filterMap] at hmem
  obtain ⟨r, hr, hdec⟩ := hmem
  exact ⟨by simpa using hflag, r, hr, (rowToActivity_some r a hdec).1, hdec⟩

/-- A sheet with a live row, a row with no url, and a soft-deleted row. -/
def demoSheet : Sheet :=
  [HEADER_ROW.map Cell.str,
   [.str "https://a", .str "Zoo", .str "true", .str "2024-01-01", .str "zoo"],
   [.str "", .str "ghost"],
   [.str "https://b", .str "Gone", .str "true", .str "", .str "", .str "", .str "",
    .str "", .str "", .str "", .str "", .str "", .str "", .str "", .str "true"]]

def demoLive : Activity :=
  { url := "https://a", shortName := "Zoo", alive := true, lastUpdated := "2024-01-01",
    category := some "zoo" }

/-- Witness for C2: read-all returns only the live record; the url-less
and soft-deleted rows are dropped. -/
theorem getAllActivities_no_removed_witness :
    demoLive ∈ getAllActivities demoSheet ∧
    (demoLive.userRemoved = false ∧
      ∃ r ∈ dataRows demoSheet, (cellAt r 0).truthy = true ∧
        rowToActivity r = some demoLive) ∧
    getAllActivities demoSheet = [demoLive] :=
  ⟨by decide, getAllActivities_no_removed demoSheet demoLive (by decide), by decide⟩

theorem findFrom_none (rows : List (List Cell)) (url : String)
    (h : ∀ r ∈ rows, cellIsStr (cellAt r 0) url = false) :
    ∀ i, findFrom i rows url = none := by
  induction rows with
  | nil => intro i; rfl
  | cons r rest ih =>
    intro i
    unfold findFrom
    rw [h r (by simp)]
    simp only [Bool.false_eq_true, if_false]
    exact ih (fun x hx => h x (by simp [hx])) (i + 1)

/-- C3: when the url matches no data row's key cell, updateField fails
with the Not-Found error and the sheet state is unchanged. -/
theorem updateActivityField_notFound (s : Sheet) (url field : String) (v : JsValue)
    (h : ∀ r ∈ dataRows s, cellIsStr (cellAt r 0) url = false) :
    updateActivityField s url field v = (s, .error .notFound) := by
  unfold updateActivityField findActivityRowIndex
  rw [findFrom_none (s.drop 1) url h 1]

/-- Witness for C3: an unknown url is rejected and writes nothing. -/
theorem updateActivityField_notFound_witness :
    (∀ r ∈ dataRows demoSheet, cellIsStr (cellAt r 0) "https://nope" = false) ∧
    updateActivityField demoSheet "https://nope" "userComment" (.str "x") =
      (demoSheet, .error .notFound) :=
  ⟨by decide,
    updateActivityField_notFound demoSheet "https://nope" "userComment" (.str "x") (by decide)⟩

/-- C10: whenever the userRating cell is a non-empty string, the decoded
record's rating is exactly the integer-parse of that cell — no range
check is applied anywhere on the read path. -/
theorem decode_rating_unchecked (row : List Cell) (a : Activity) (s9 : String)
    (hc : cellAt row 9 = .str s9) (hne : s9 ≠ "")
    (h : rowToActivity row = some a) :
    a.userRating = some (parseIntJS s9) := by
  obtain ⟨-, rfl⟩ := rowToActivity_some row a h
  show (if (cellAt row 9).truthy then some (parseIntJS (cellAt row 9).toStr) else none) =
    some (parseIntJS s9)
  rw [hc]
  rw [if_pos (show (Cell.str s9).truthy = true from bne_iff_ne.mpr hne)]
  rfl

/-- A row carrying the out-of-range stored rating "9". -/
def demoRow9 : List Cell :=
  [.str "u", .str "n", .str "true", .str "d", .str "", .str "", .str "", .str "",
   .str "", .str "9"]

def demoA9 : Activity :=
  { url := "u", shortName := "n", alive := true, lastUpdated := "d",
    userRating := some (.rat 9) }

/-- Witness for C10: the stored "9" decodes to rating 9 and is surfaced
unchanged by read-all. -/
theorem decode_rating_unchecked_witness :
    cellAt demoRow9 9 = .str "9" ∧
    rowToActivity demoRow9 = some demoA9 ∧
    demoA9.userRating = some (parseIntJS "9") ∧
    parseIntJS "9" = .rat 9 ∧
    getAllActivities [HEADER_ROW.map Cell.str, demoRow9] = [demoA9] :=
  ⟨by decide, by decide,
    decode_rating_unchecked demoRow9 demoA9 "9" (by decide) (by decide) (by decide),
    by decide, by decide⟩

/-! ### Claim support: the single-cell write -/

/-- The cell at 0-indexed sheet position (row, column). -/
def sheetCell (s : Sheet) (r c : Nat) : Cell := cellAt ((s.get? r).getD []) c

/-- Identify the two representations of an empty cell: a missing cell and
an empty-string cell are observationally the same to every reader. -/
def cellNorm (c : Cell) : Cell :=
  match c with
  | .undefined => .str ""
  | c => c

theorem findFrom_bounds (rows : List (List Cell)) (url : String) :
    ∀ i j, findFrom i rows url = some j → i + 1 ≤ j ∧ j ≤ i + rows.length := by
  induction rows with
  | nil => intro i j h; exact absurd h (by simp [findFrom])
  | cons r rest ih =>
    intro i j h
    unfold findFrom at h
    by_cases hc : cellIsStr (cellAt r 0) url
    · rw [if_pos hc] at h
      have hj : i + 1 = j := by injection h
      simp only [List.length_cons]
      omega
    · rw [if_neg hc] at h
      have := ih (i + 1) j h
      simp only [List.length_cons]
      omega

theorem findActivityRowIndex_lt (s : Sheet) (url : String) (i : Nat)
    (h : findActivityRowIndex s url = some i) : i - 1 < s.length ∧ 1 ≤ i - 1 := by
  unfold findActivityRowIndex at h
  have hb := findFrom_bounds (s.drop 1) url 1 i h
  have hlen : (s.drop 1).length = s.length - 1 := by simp
  omega

theorem setCellPadded_self (r : List Cell) (col : Nat) (v : Cell) :
    cellAt (setCellPadded r col v) col = v := by
  unfold setCellPadded cellAt
  by_cases h : col < r.length
  · rw [if_pos h, List.get?_eq_getElem?, List.getElem?_set_eq_of_lt v (by simpa using h)]
    rfl
  · rw [if_neg h]
    push_neg at h
    have hlen : (r ++ List.replicate (col - r.length) (Cell.str "")).length = col := by
      simp only [List.length_append, List.length_replicate]
      omega
    have h2 : (r ++ List.replicate (col - r.length) (Cell.str "")).length ≤ col := le_of_eq hlen
    rw [List.get?_eq_getElem?, List.getElem?_append_right h2, hlen]
    simp

theorem setCellPadded_other (r : List Cell) (col c : Nat) (v : Cell) (hne : c ≠ col) :
    cellNorm (cellAt (setCellPadded r col v) c) = cellNorm (cellAt r c) := by
  unfold setCellPadded cellAt
  by_cases h : col < r.length
  · rw [if_pos h, List.get?_eq_getElem?, List.get?_eq_getElem?,
      List.getElem?_set_ne (Ne.symm hne)]
  · rw [if_neg h]
    push_neg at h
    by_cases hc : c < r.length
    · have hc2 : c < (r ++ List.replicate (col - r.length) (Cell.str "")).length := by
        simp only [List.length_append]
        omega
      rw [List.get?_eq_getElem?, List.get?_eq_getElem?, List.getElem?_append_left hc2,
        List.getElem?_append_left hc]
    · push_neg at hc
      have hr : (r.get? c).getD Cell.undefined = Cell.undefined := by
        rw [List.get?_eq_getElem?, List.getElem?_eq_none hc]
        rfl
      rw [hr]
      by_cases hlt : c < col
      · have hc2 : c < (r ++ List.replicate (col - r.length) (Cell.str "")).length := by
          simp only [List.length_append, List.length_replicate]
          omega
        rw [List.get?_eq_getElem?, List.getElem?_append_left hc2,
          List.getElem?_append_right hc,
          List.getElem?_replicate_of_lt (by omega)]
        rfl
      · push_neg at hlt
        have hge : ((r ++ List.replicate (col - r.length) (Cell.str "")) ++ [v]).length ≤ c := by
          simp only [List.length_append, List.length_replicate, List.length_singleton]
          omega
        rw [List.get?_eq_getElem?, List.getElem?_eq_none hge]
        rfl

theorem writeCell_self (s : Sheet) (ri col : Nat) (v : Cell) (h : ri < s.length) :
    sheetCell (writeCell s ri col v) ri col = v := by
  unfold writeCell sheetCell
  rw [List.get?_eq_getElem?, List.getElem?_set_eq_of_lt _ (by simpa using h)]
  simp only [Option.getD_some]
  exact setCellPadded_self _ _ _

theorem writeCell_other (s : Sheet) (ri col r c : Nat) (v : Cell)
    (hne : ¬(r = ri ∧ c = col)) :
    cellNorm (sheetCell (writeCell s ri col v) r c) = cellNorm (sheetCell s r c) := by
  unfold writeCell sheetCell
  by_cases hr : r = ri
  · subst hr
    have hcne : c ≠ col := fun hcc => hne ⟨rfl, hcc⟩
    by_cases hlt : r < s.length
    · rw [List.get?_eq_getElem?, List.getElem?_set_eq_of_lt _ hlt]
      simp only [Option.getD_some]
      rw [show (s.get? r).getD [] = s[r]?.getD [] from by rw [List.get?_eq_getElem?]]
      exact setCellPadded_other _ _ _ _ hcne
    · push_neg at hlt
      rw [List.set_eq_of_length_le hlt]
  · rw [List.get?_eq_getElem?, List.getElem?_set_ne (fun hh => hr hh.symm),
      ← List.get?_eq_getElem?]

/-- C4: for a url present in the table and a known field name,
updateField writes exactly the single target cell — every other cell is
unchanged up to the empty/absent identification — and returns the record
re-read by key from the post-write table state. -/
theorem updateActivityField_found (s : Sheet) (url field : String) (v : JsValue)
    (i col : Nat) (hfind : findActivityRowIndex s url = some i)
    (hcol : columnIndex field = some col) :
    updateActivityField s url field v =
      (writeCell s (i - 1) col (.str (formatValue v)),
       .ok (getActivityByUrl (writeCell s (i - 1) col (.str (formatValue v))) url)) ∧
    sheetCell (writeCell s (i - 1) col (.str (formatValue v))) (i - 1) col =
      .str (formatValue v) ∧
    (∀ r c : Nat, ¬(r = i - 1 ∧ c = col) →
      cellNorm (sheetCell (writeCell s (i - 1) col (.str (formatValue v))) r c) =
        cellNorm (sheetCell s r c)) := by
  have hlt := (findActivityRowIndex_lt s url i hfind).1
  refine ⟨?_, writeCell_self s (i - 1) col _ hlt,
    fun r c hnc => writeCell_other s (i - 1) col r c _ hnc⟩
  unfold updateActivityField
  rw [hfind, hcol]
  rfl

/-- Witness for C4: a comment write on the demo sheet touches only cell
(1, 13) and returns the re-read record. -/
theorem updateActivityField_found_witness :
    updateActivityField demoSheet "https://a" "userComment" (.str "hi") =
      (writeCell demoSheet 1 13 (.str "hi"),
       .ok (getActivityByUrl (writeCell demoSheet 1 13 (.str "hi")) "https://a")) ∧
    sheetCell (writeCell demoSheet 1 13 (.str "hi")) 1 13 = .str "hi" ∧
    cellNorm (sheetCell (writeCell demoSheet 1 13 (.str "hi")) 1 1) =
      cellNorm (sheetCell demoSheet 1 1) :=
  have h := updateActivityField_found demoSheet "https://a" "userComment" (.str "hi") 2 13
    (by decide) (by decide)
  ⟨h.1, h.2.1, h.2.2 1 1 (by decide)⟩

/-! ### C5: whole-record update -/

/-- C5: for a url present in the table, updateWhole computes the new
record as the shallow merge of the partial update over the decoded
current row — the update winning on every key it carries, a key
explicitly set to undefined included, and the current record's field kept
otherwise — and writes the re-encoded merged record back as the full
row. The second conjunct characterizes the merge field by field, for any
current record. -/
theorem updateActivity_merge (s : Sheet) (url : String) (u : ActivityUpdate) (i : Nat)
    (hfind : findActivityRowIndex s url = some i) :
    updateActivity s url u =
      (s.set (i - 1)
        ((activityToRow (mergeActivity (rowToActivity ((s.get? (i - 1)).getD [])) u)).map
          Cell.str),
       .ok (mergeActivity (rowToActivity ((s.get? (i - 1)).getD [])) u)) ∧
    (∀ cur : Option Activity,
      mergeActivity cur u =
        { url := match u.url with
            | some w => w.getD ""
            | none => (cur.getD emptyActivity).url
          shortName := match u.shortName with
            | some w => w.getD ""
            | none => (cur.getD emptyActivity).shortName
          alive := match u.alive with
            | some w => w.getD false
            | none => (cur.getD emptyActivity).alive
          lastUpdated := match u.lastUpdated with
            | some w => w.getD ""
            | none => (cur.getD emptyActivity).lastUpdated
          category := match u.category with
            | some w => w
            | none => (cur.getD emptyActivity).category
          openHours := match u.openHours with
            | some w => w
            | none => (cur.getD emptyActivity).openHours
          address := match u.address with
            | some w => w
            | none => (cur.getD emptyActivity).address
          services := match u.services with
            | some w => w
            | none => (cur.getD emptyActivity).services
          description := match u.description with
            | some w => w
            | none => (cur.getD emptyActivity).description
          userRating := match u.userRating with
            | some w => w
            | none => (cur.getD emptyActivity).userRating
          drivingMinutes := match u.drivingMinutes with
            | some w => w
            | none => (cur.getD emptyActivity).drivingMinutes
          transitMinutes := match u.transitMinutes with
            | some w => w
            | none => (cur.getD emptyActivity).transitMinutes
          distanceKm := match u.distanceKm with
            | some w => w
            | none => (cur.getD emptyActivity).distanceKm
          userComment := match u.userComment with
            | some w => w
            | none => (cur.getD emptyActivity).userComment
          userRemoved := match u.userRemoved with
            | some w => w.getD false
            | none => (cur.getD emptyActivity).userRemoved }) := by
  constructor
  · unfold updateActivity
    rw [hfind]
  · intro cur
    rfl

/-- An update that renames the record and explicitly sets `category` to
undefined, overwriting the present field. -/
def demoUpd : ActivityUpdate := { shortName := some (some "New"), category := some none }

/-- Witness for C5: the merged record takes the new name, loses its
category through the explicit undefined, keeps everything else, and the
full re-encoded row is written back. -/
theorem updateActivity_merge_witness :
    updateActivity demoSheet "https://a" demoUpd =
      (demoSheet.set 1
        ((activityToRow (mergeActivity (rowToActivity ((demoSheet.get? 1).getD []))
          demoUpd)).map Cell.str),
       .ok (mergeActivity (rowToActivity ((demoSheet.get? 1).getD [])) demoUpd)) ∧
    (mergeActivity (some demoLive) demoUpd).category = none ∧
    (mergeActivity (some demoLive) demoUpd).shortName = "New" ∧
    (mergeActivity (some demoLive) demoUpd).url = "https://a" ∧
    (mergeActivity (some demoLive) demoUpd).alive = true :=
  have h := updateActivity_merge demoSheet "https://a" demoUpd 2 (by decide)
  ⟨h.1, by decide, by decide, by decide, by decide⟩

/-! ### C6 and C9: the rating handler's validation boundary -/

/-- The handler's dispatch on the store result (the tail of the PUT path
in update-rating.js). -/
def storeDispatch (r : Sheet × Except StoreError (Option Activity)) : Sheet × HttpResponse :=
  match r with
  | (s2, .ok activity) => (s2, { statusCode := 200, body := .success activity })
  | (s2, .error .notFound) => (s2, { statusCode := 404, body := .errorMsg "Activity not found" })
  | (s2, .error (.unknownField _)) =>
    (s2, { statusCode := 500, body := .errorMsg "Failed to update rating" })

/-- Reduction of the handler on a PUT with a parsed body and a present
url: only the rating validation decides between the 400 response and the
store path. -/
theorem handler_put_reduction (s : Sheet) (b : RatingBody)
    (hurl : urlMissing b.url = false) :
    updateRatingHandler s ⟨"PUT", some b⟩ =
      if b.rating != .null && (jsLt b.rating 1 || jsGt b.rating 5) then
        (s, { statusCode := 400, body := .errorMsg "Rating must be between 1 and 5" })
      else storeDispatch (updateActivityField s (b.url.getD "") "userRating" b.rating) := by
  have h1 : updateRatingHandler s ⟨"PUT", some b⟩ =
      (if urlMissing b.url then (s, { statusCode := 400, body := .errorMsg "URL is required" })
       else if b.rating != .null && (jsLt b.rating 1 || jsGt b.rating 5) then
         (s, { statusCode := 400, body := .errorMsg "Rating must be between 1 and 5" })
       else match updateActivityField s (b.url.getD "") "userRating" b.rating with
         | (s2, .ok activity) => (s2, { statusCode := 200, body := .success activity })
         | (s2, .error .notFound) =>
           (s2, { statusCode := 404, body := .errorMsg "Activity not found" })
         | (s2, .error (.unknownField _)) =>
           (s2, { statusCode := 500, body := .errorMsg "Failed to update rating" })) := rfl
  rw [h1, hurl]
  simp only [Bool.false_eq_true, if_false]
  by_cases hv : b.rating != .null && (jsLt b.rating 1 || jsGt b.rating 5)
  · rw [if_pos hv, if_pos hv]
  · rw [if_neg hv, if_neg hv]
    unfold storeDispatch
    rfl

/-- C6: a numeric rating outside 1-5 produces the 400 validation response
with the sheet untouched (no store access), while the null clear-rating
sentinel passes validation and the result is exactly the store path. -/
theorem updateRating_range_validation (s : Sheet) (b : RatingBody)
    (hurl : urlMissing b.url = false) :
    (∀ q : ℚ, b.rating = .num (.rat q) → (q < 1 ∨ 5 < q) →
      updateRatingHandler s ⟨"PUT", some b⟩ =
        (s, { statusCode := 400, body := .errorMsg "Rating must be between 1 and 5" })) ∧
    (b.rating = .null →
      updateRatingHandler s ⟨"PUT", some b⟩ =
        storeDispatch (updateActivityField s (b.url.getD "") "userRating" .null)) := by
  constructor
  · intro q hq hrange
    rw [handler_put_reduction s b hurl, hq]
    have hlt : jsLt (.num (.rat q)) 1 = decide (q < 1) := rfl
    have hgt : jsGt (.num (.rat q)) 5 = decide (5 < q) := rfl
    have hcond : ((JsValue.num (.rat q) != .null) &&
        (jsLt (.num (.rat q)) 1 || jsGt (.num (.rat q)) 5)) = true := by
      rw [hlt, hgt]
      rcases hrange with h | h <;> simp [h]
    rw [if_pos hcond]
  · intro hq
    rw [handler_put_reduction s b hurl, hq]
    rfl

/-- Witness for C6: rating 6 gets the 400 response and leaves the demo
sheet unchanged; rating null reaches the store and succeeds. -/
theorem updateRating_range_validation_witness :
    updateRatingHandler demoSheet ⟨"PUT", some ⟨some "https://a", .num (.rat 6)⟩⟩ =
      (demoSheet, { statusCode := 400, body := .errorMsg "Rating must be between 1 and 5" }) ∧
    updateRatingHandler demoSheet ⟨"PUT", some ⟨some "https://a", .null⟩⟩ =
      storeDispatch (updateActivityField demoSheet "https://a" "userRating" .null) ∧
    (updateRatingHandler demoSheet ⟨"PUT", some ⟨some "https://a", .null⟩⟩).2.statusCode = 200 :=
  ⟨(updateRating_range_validation demoSheet ⟨some "https://a", .num (.rat 6)⟩ (by decide)).1
      6 rfl (Or.inr (by decide)),
    (updateRating_range_validation demoSheet ⟨some "https://a", .null⟩ (by decide)).2 rfl,
    by decide⟩

/-- C9: a rating that is absent (undefined) or otherwise coerces to NaN
passes the range check — neither comparison holds on NaN — so the handler
never returns the validation error and proceeds to the store; an
undefined rating is then formatted as the empty cell, so the written
row's rating cell is blank and decodes as an absent rating. -/
theorem updateRating_nonnumeric_passes (s : Sheet) (b : RatingBody)
    (hurl : urlMissing b.url = false) (hnan : toNumber b.rating = .nan) :
    updateRatingHandler s ⟨"PUT", some b⟩ =
      storeDispatch (updateActivityField s (b.url.getD "") "userRating" b.rating) ∧
    (b.rating = .undefined → ∀ i, findActivityRowIndex s (b.url.getD "") = some i →
      sheetCell (updateActivityField s (b.url.getD "") "userRating" b.rating).1 (i - 1) 9 =
        .str "" ∧
      (∀ a2, rowToActivity
          (((updateActivityField s (b.url.getD "") "userRating" b.rating).1.get?
            (i - 1)).getD []) = some a2 →
        a2.userRating = none)) := by
  have hlt : jsLt b.rating 1 = false := by unfold jsLt; rw [hnan]
  have hgt : jsGt b.rating 5 = false := by unfold jsGt; rw [hnan]
  constructor
  · rw [handler_put_reduction s b hurl, hlt, hgt]
    simp
  · intro hu i hfind
    rw [hu]
    have hstate : (updateActivityField s (b.url.getD "") "userRating" JsValue.undefined).1 =
        writeCell s (i - 1) 9 (.str "") := by
      unfold updateActivityField
      rw [hfind, show columnIndex "userRating" = some 9 from rfl]
      rfl
    have hlen := (findActivityRowIndex_lt s (b.url.getD "") i hfind).1
    have hcell : sheetCell (updateActivityField s (b.url.getD "") "userRating"
        JsValue.undefined).1 (i - 1) 9 = .str "" := by
      rw [hstate]
      exact writeCell_self s (i - 1) 9 _ hlen
    refine ⟨hcell, fun a2 h2 => ?_⟩
    obtain ⟨-, rfl⟩ := rowToActivity_some _ a2 h2
    show (if (cellAt (((updateActivityField s (b.url.getD "") "userRating"
        JsValue.undefined).1.get? (i - 1)).getD []) 9).truthy then _ else none) = none
    rw [show cellAt (((updateActivityField s (b.url.getD "") "userRating"
        JsValue.undefined).1.get? (i - 1)).getD []) 9 = sheetCell (updateActivityField s
        (b.url.getD "") "userRating" JsValue.undefined).1 (i - 1) 9 from rfl, hcell]
    rfl

/-- Witness for C9: an undefined rating on the demo sheet passes
validation, succeeds, and blanks the rating cell. -/
theorem updateRating_nonnumeric_passes_witness :
    updateRatingHandler demoSheet ⟨"PUT", some ⟨some "https://a", .undefined⟩⟩ =
      storeDispatch (updateActivityField demoSheet "https://a" "userRating" .undefined) ∧
    sheetCell (updateActivityField demoSheet "https://a" "userRating" .undefined).1 1 9 =
      .str "" ∧
    (updateRatingHandler demoSheet ⟨"PUT", some ⟨some "https://a", .undefined⟩⟩).2.statusCode =
      200 ∧
    toNumberString "abc" = .nan :=
  have h := updateRating_nonnumeric_passes demoSheet ⟨some "https://a", .undefined⟩
    (by decide) (by decide)
  ⟨h.1, (h.2 rfl 2 (by decide)).1, by decide, by decide⟩

end KinderActivities
